import Mathlib

/-!
Verification development for the online audio resolution and cache subsystem
(src/main/core/getAllHistorySongs.ts streaming service, src/main/db/queries/onlineSongs.ts,
src/main/getYouTubeStreamUrl.ts).

The TypeScript source is shallowly embedded: module-level mutable state (sticky Piped
instance, byte-cache directory, prefetch queue, URL memo) is threaded explicitly,
network calls are abstracted as environment functions, and timestamps are integers
(milliseconds, as produced by Date.now / fs stats).
-/

namespace Analizalo

/-! ## JS-level string helpers

Models of the JavaScript built-ins the source relies on: String.prototype.includes,
String.prototype.startsWith, parseInt, and URL.searchParams.get. -/

/-- true when the first list is an initial segment of the second (helper for substring search). -/
def leadMatch : List Char → List Char → Bool
  | [], _ => true
  | _ :: _, [] => false
  | p :: ps, c :: cs => p == c && leadMatch ps cs

/-- Model of videoId.startsWith('MPED') ? videoId.substring(4) : videoId,
the identifier normalization applied throughout the streaming service. -/
def cleanMPED (videoId : String) : String :=
  if leadMatch "MPED".toList videoId.toList then (videoId.toList.drop 4).asString
  else videoId

/-- true when the first list occurs contiguously inside the second. -/
def subOccurs (ps : List Char) : List Char → Bool
  | [] => ps.isEmpty
  | c :: cs => leadMatch ps (c :: cs) || subOccurs ps cs

/-- Model of s.includes(pat) on JavaScript strings. -/
def strIncludes (s pat : String) : Bool :=
  subOccurs pat.toList s.toList

/-- JavaScript truthiness of an optional string field: null/undefined and the empty
string are falsy. -/
def jsTruthy : Option String → Bool
  | none => false
  | some s => s ≠ ""

/-- Model of a || b || '' over two optional string fields: the first truthy value, else ''. -/
def jsOrStr (a b : Option String) : String :=
  if jsTruthy a then a.getD "" else if jsTruthy b then b.getD "" else ""

/-- Model of parseInt on a decimal string: the maximal leading digit run, none when the
string does not start with a digit (parseInt would yield NaN). Sign and whitespace
handling is omitted; the expire query parameters fed to it are plain digit strings. -/
def jsParseIntDigits (s : String) : Option Nat :=
  let ds := s.toList.takeWhile Char.isDigit
  if ds.isEmpty then none
  else some (ds.foldl (fun n c => 10 * n + (c.toNat - 48)) 0)

/-- The characters after the first occurrence of c, none when c is absent. -/
def afterChar (c : Char) : List Char → Option (List Char)
  | [] => none
  | x :: xs => if x == c then some xs else afterChar c xs

/-- Split a character list at every occurrence of the separator (the separator is
dropped; adjacent separators yield empty pieces, as String.split does). -/
def splitOnChar (c : Char) : List Char → List (List Char)
  | [] => [[]]
  | x :: xs =>
    let r := splitOnChar c xs
    if x == c then [] :: r
    else
      match r with
      | [] => [[x]]
      | h :: t => (x :: h) :: t

/-- The key of one query pair: the characters before the first equals sign. -/
def pairKey (pair : List Char) : List Char :=
  pair.takeWhile (fun c => !(c == '='))

/-- The value of one query pair: the characters after the first equals sign, empty when
there is none (URLSearchParams yields the empty string for a bare key). -/
def pairValue (pair : List Char) : List Char :=
  match pair.dropWhile (fun c => !(c == '=')) with
  | [] => []
  | _ :: rest => rest

/-- Model of new URL(url).searchParams.get(key): the value of the first key=value pair
after the first question mark (any fragment removed), none when the key is absent.
Percent decoding is not modelled; the expire values in scope are digit strings. -/
def searchParamGet (url key : String) : Option String :=
  match afterChar '?' url.toList with
  | none => none
  | some q =>
    let q2 := q.takeWhile (fun c => !(c == '#'))
    (splitOnChar '&' q2).findSome? fun pair =>
      if pairKey pair = key.toList then some (pairValue pair).asString else none

/-- Crude validity test standing in for new URL(url) not throwing: the string contains a
scheme separator. Strings without it take the default-TTL branch, matching the catch
clause in saveStreamInfoToCache. -/
def urlWellFormed (url : String) : Bool :=
  subOccurs "://".toList url.toList

/-! ## Audio formats (AudioFormat interface, getAllHistorySongs.ts) -/

/-- The Codec constant object: mp4a | opus. -/
inductive Codec where
  | mp4a
  | opus
deriving DecidableEq, Repr

/-- The AudioFormat interface of the streaming service. -/
structure AudioFormat where
  itag : Int
  audioCodec : Codec
  bitrate : Int
  duration : Int
  url : String
  size : Int
  mimeType : String
  quality : String
deriving DecidableEq, Repr

/-! ## Metadata cache (src/main/db/queries/onlineSongs.ts over the stream_url_cache table)

The table is modelled as a list of rows; video_id is the primary key, so select-limit-1
is the first matching row and delete removes every matching row. Timestamps are integer
milliseconds; now stands for new Date() at the time of the call. -/

/-- One row of stream_url_cache. -/
structure CacheRow where
  videoId : String
  audioFormats : List AudioFormat
  cachedAt : Int
  expiresAt : Int
  title : Option String
  duration : Option Int
deriving DecidableEq, Repr

/-- db.select().from(streamUrlCache).where(eq(videoId)).limit(1). -/
def lookupRow (dbase : List CacheRow) (videoId : String) : Option CacheRow :=
  (dbase.filter (fun r => r.videoId = videoId)).head?

/-- deleteCachedStreamInfo: db.delete(streamUrlCache).where(eq(videoId)). -/
def deleteCachedStreamInfo (dbase : List CacheRow) (videoId : String) : List CacheRow :=
  dbase.filter (fun r => r.videoId ≠ videoId)

/-- getCachedStreamInfo: look the row up; when now >= expiresAt delete it and return null,
otherwise return its audio formats. Returns the result together with the database state
after the call. -/
def getCachedStreamInfo (now : Int) (dbase : List CacheRow) (videoId : String) :
    Option (List AudioFormat) × List CacheRow :=
  match lookupRow dbase videoId with
  | none => (none, dbase)
  | some cached =>
    if now ≥ cached.expiresAt then
      (none, deleteCachedStreamInfo dbase videoId)
    else
      (some cached.audioFormats, dbase)

/-- The expiration computed by saveStreamInfoToCache: the first format's expire query
parameter (epoch seconds) times 1000 minus five minutes; the default of now plus six
hours when the list is empty, the first url is falsy or unparseable, or the parameter is
absent or empty. none models the Invalid Date produced when parseInt returns NaN. -/
def computeExpiresAt (now : Int) (audioFormats : List AudioFormat) : Option Int :=
  let dflt : Int := now + 6 * 60 * 60 * 1000
  match audioFormats with
  | [] => some dflt
  | f :: _ =>
    if f.url = "" then some dflt
    else if ¬ urlWellFormed f.url then some dflt
    else
      match searchParamGet f.url "expire" with
      | none => some dflt
      | some v =>
        if v = "" then some dflt
        else
          match jsParseIntDigits v with
          | some n => some ((n : Int) * 1000 - 5 * 60 * 1000)
          | none => none

/-- saveStreamInfoToCache: computes expiresAt as above and upserts the row keyed by
videoId (insert, or on conflict overwrite formats, expiresAt, title, duration and reset
cachedAt). When the computed date is invalid the write fails inside the catch and the
table is unchanged. -/
def saveStreamInfoToCache (now : Int) (dbase : List CacheRow) (videoId : String)
    (audioFormats : List AudioFormat) (title : Option String) (duration : Option Int) :
    List CacheRow :=
  match computeExpiresAt now audioFormats with
  | none => dbase
  | some e =>
    let row : CacheRow :=
      { videoId := videoId, audioFormats := audioFormats, cachedAt := now,
        expiresAt := e, title := title, duration := duration }
    if dbase.any (fun r => r.videoId = videoId) then
      dbase.map (fun r => if r.videoId = videoId then row else r)
    else
      dbase ++ [row]

/-! ## Format selection (getHighestQualityAudio) -/

/-- The comparator b.bitrate - a.bitrate of the fallback sort (descending bitrate);
Array.prototype.sort is stable, matching insertionSort. -/
def bitrateDesc (a b : AudioFormat) : Prop := b.bitrate ≤ a.bitrate

instance : DecidableRel bitrateDesc := fun a b => inferInstanceAs (Decidable (b.bitrate ≤ a.bitrate))

instance : IsTotal AudioFormat bitrateDesc :=
  ⟨fun a b => le_total b.bitrate a.bitrate⟩

instance : IsTrans AudioFormat bitrateDesc :=
  ⟨fun _ _ _ h1 h2 => le_trans h2 h1⟩

/-- getHighestQualityAudio: null on an empty list; else the first format whose itag is
251 or 140; else the head of the list sorted by descending bitrate. -/
def getHighestQualityAudio (formats : List AudioFormat) : Option AudioFormat :=
  match formats with
  | [] => none
  | _ :: _ =>
    match formats.find? (fun f => f.itag == 251 || f.itag == 140) with
    | some preferred => some preferred
    | none => (formats.insertionSort bitrateDesc).head?

/-! ## Byte cache files and the cache janitor (cleanupCache)

A byte-cache file is one entry of the readdir/stat scan: its file name inside CACHE_DIR,
its mtime and atime in milliseconds, and its size in bytes. The directory is modelled as
a list of such entries (names produced by readdir are distinct, but no theorem below
needs that). -/

/-- One file of the nora-audio-cache directory as seen by cleanupCache. -/
structure CacheFile where
  name : String
  mtime : Int
  atime : Int
  size : Nat
deriving DecidableEq, Repr

/-- The cache-size budget: MAX_CACHE_SIZE_MB = 4096, in bytes. -/
def maxCacheBytes : Nat := 4096 * 1024 * 1024

/-- The age cutoff: MAX_CACHE_AGE_DAYS = 20, in milliseconds. -/
def maxCacheAgeMs : Int := 20 * 24 * 60 * 60 * 1000

/-- path.basename(file, path.extname(file)): the name with its extension (the part from
the last dot, provided that dot is not the leading character) removed. -/
def stripExt (name : String) : String :=
  let cs := name.toList
  match (cs.reverse).findIdx? (· == '.') with
  | none => name
  | some j =>
    let i := cs.length - 1 - j
    if i = 0 then name else (cs.take i).asString

/-- updateProtectedSongIds: the protected set is the incoming ids with any MPED marker
stripped; it wholesale replaces the previous set. -/
def updateProtectedSongIds (songIds : List String) : List String :=
  songIds.map cleanMPED

/-- protectedSongIds.has(videoId) for a scanned file, where videoId is the file name
without its extension. -/
def isProt (pset : List String) (f : CacheFile) : Bool :=
  (stripExt f.name) ∈ pset

/-- Math.max(mtime, atime), the last-used time both passes compare against. -/
def lastUsed (f : CacheFile) : Int :=
  max f.mtime f.atime

/-- Pass 1 of cleanupCache: unprotected files whose last-used time is more than
MAX_CACHE_AGE_DAYS old are unlinked; survivors keep their scan order. -/
def agePass (pset : List String) (now : Int) (files : List CacheFile) : List CacheFile :=
  files.filter (fun f => isProt pset f || ¬ (now - lastUsed f > maxCacheAgeMs))

/-- The pass-2 comparator: protected files sort after unprotected ones, and within each
group files sort by ascending last-used time. This is the total preorder realised by the
source comparator; the source sort is stable, as is insertionSort. -/
def janitorOrder (pset : List String) (a b : CacheFile) : Prop :=
  (if isProt pset a then (1 : Nat) else 0) < (if isProt pset b then (1 : Nat) else 0) ∨
    ((isProt pset a) = (isProt pset b) ∧ lastUsed a ≤ lastUsed b)

instance (pset : List String) : DecidableRel (janitorOrder pset) := fun _ _ => instDecidableOr

instance (pset : List String) : IsTotal CacheFile (janitorOrder pset) := by
  constructor
  intro a b
  by_cases hab : isProt pset a = isProt pset b
  · rcases le_total (lastUsed a) (lastUsed b) with h | h
    · exact Or.inl (Or.inr ⟨hab, h⟩)
    · exact Or.inr (Or.inr ⟨hab.symm, h⟩)
  · cases ha : isProt pset a <;> cases hb : isProt pset b <;>
      simp [ha, hb] at hab ⊢ <;> simp [janitorOrder, ha, hb]

instance (pset : List String) : IsTrans CacheFile (janitorOrder pset) := by
  constructor
  intro a b c hab hbc
  rcases hab with h1 | ⟨e1, l1⟩ <;> rcases hbc with h2 | ⟨e2, l2⟩
  · exact Or.inl (lt_trans h1 h2)
  · exact Or.inl (by simpa [e2] using h1)
  · exact Or.inl (by simpa [e1] using h2)
  · exact Or.inr ⟨e1.trans e2, le_trans l1 l2⟩

/-- Pass 2 of cleanupCache: given the running total of remaining bytes and the sorted
remaining files, while the total exceeds the budget delete the head, but stop as soon as
the head is protected (only protected files remain past it). -/
def sizePass (pset : List String) : Nat → List CacheFile → List CacheFile
  | _, [] => []
  | total, f :: rest =>
    if total ≤ maxCacheBytes then f :: rest
    else if isProt pset f then f :: rest
    else sizePass pset (total - f.size) rest

/-- Total size in bytes of a file list. -/
def totalSize (files : List CacheFile) : Nat :=
  (files.map CacheFile.size).sum

/-- cleanupCache: the age pass, then the stable sort putting protected files last and
older-by-last-used files first, then the size pass against the running total. Returns
the files that survive the sweep. -/
def cleanupCache (pset : List String) (now : Int) (files : List CacheFile) : List CacheFile :=
  let remaining := agePass pset now files
  let sorted := remaining.insertionSort (janitorOrder pset)
  sizePass pset (totalSize sorted) sorted

/-- A sequence of janitor sweeps, one per timestamp, against an unchanged protected set. -/
def sweeps (pset : List String) : List Int → List CacheFile → List CacheFile
  | [], files => files
  | t :: ts, files => sweeps pset ts (cleanupCache pset t files)

/-! ## Piped stream provider (fetchStreamInfo / processStreamData)

A Piped response is a duration plus raw audioStreams entries; the network is abstracted
as an environment mapping each instance URL to its response. env inst = none covers
every way fetchFromInstance returns null: abort after PIPED_TIMEOUT_MS, a non-OK HTTP
status, a response carrying an error field, or an empty audioStreams array. The
Promise.race winner is modelled as the first instance in start order whose fetch
succeeds; the set of instances contacted is winner-independent, because the map creating
the racing promises fires a request to every instance in the list. -/

/-- One entry of a Piped audioStreams array; every field may be absent. -/
structure RawStream where
  itag : Option Int
  codec : Option String
  mimeType : Option String
  bitrate : Option Int
  url : Option String
  contentLength : Option Int
  quality : Option String
deriving DecidableEq, Repr

/-- A successful Piped /streams response body. -/
structure PipedData where
  duration : Option Int
  audioStreams : List RawStream
deriving DecidableEq, Repr

/-- The StreamProviderResult interface. -/
structure StreamProviderResult where
  playable : Bool
  statusMSG : String
  audioFormats : Option (List AudioFormat)
deriving DecidableEq, Repr

/-- The hard-coded Piped instance list, most reliable first. -/
def PIPED_INSTANCES : List String :=
  ["https://pipedapi.in.projectsegfau.lt",
   "https://pipedapi.darkness.services",
   "https://api.piped.yt",
   "https://pipedapi.adminforge.de",
   "https://pipedapi.kavin.rocks"]

/-- The AudioFormat a raw Piped stream maps to inside processStreamData. -/
def mkFormat (data : PipedData) (s : RawStream) : AudioFormat :=
  let cd := jsOrStr s.codec s.mimeType
  { itag := s.itag.getD 0,
    audioCodec := if strIncludes cd "mp4" || strIncludes cd "m4a" then Codec.mp4a else Codec.opus,
    bitrate := s.bitrate.getD 0,
    duration := data.duration.getD 0,
    url := s.url.getD "",
    size := s.contentLength.getD 0,
    mimeType := s.mimeType.getD "",
    quality := s.quality.getD "" }

/-- processStreamData: keep only streams with a truthy url, map them to AudioFormat;
when none remain the result is unplayable and the sticky instance is left alone,
otherwise the result is playable and the answering instance becomes the remembered
lastWorkingInstance. Returns the result with the new sticky value. -/
def processStreamData (data : PipedData) (inst : String) (sticky : Option String) :
    StreamProviderResult × Option String :=
  let audioFormats := (data.audioStreams.filter (fun s => jsTruthy s.url)).map (mkFormat data)
  if audioFormats.isEmpty then
    ({ playable := false, statusMSG := "No valid audio formats", audioFormats := none }, sticky)
  else
    ({ playable := true, statusMSG := "OK", audioFormats := some audioFormats }, some inst)

/-- The outcome of one fetchStreamInfo call: the provider result, the remembered
lastWorkingInstance afterwards, the Piped instances a request was fired at (in start
order, with repetitions), and whether the yt-dlp fallback ran. -/
structure FetchOutcome where
  result : StreamProviderResult
  sticky : Option String
  contacts : List String
  usedFallback : Bool
deriving DecidableEq, Repr

/-- The instancesToTry list: the remembered instance moved to the front when it is one
of the PIPED_INSTANCES, the plain list otherwise. -/
def instancesToTry (sticky : Option String) : List String :=
  match sticky with
  | none => PIPED_INSTANCES
  | some lw =>
    if lw ∈ PIPED_INSTANCES then lw :: PIPED_INSTANCES.filter (fun i => i ≠ lw)
    else PIPED_INSTANCES

/-- The concurrent Promise.race over a list of instances: a request is fired at every
instance; the winner is the first succeeding one, with lastWorkingInstance already
cleared to null when the race starts. When no instance succeeds the yt-dlp fallback
result (itself leaving the sticky value untouched) is returned. -/
def raceInstances (env : String → Option PipedData) (fallback : StreamProviderResult)
    (insts : List String) (prior : List String) : FetchOutcome :=
  match insts.findSome? (fun i => (env i).map (fun d => (i, d))) with
  | some (i, d) =>
    let (res, sticky) := processStreamData d i none
    { result := res, sticky := sticky, contacts := prior ++ insts, usedFallback := false }
  | none =>
    { result := fallback, sticky := none, contacts := prior ++ insts, usedFallback := true }

/-- fetchStreamInfo: normalize the id; when a lastWorkingInstance is remembered fetch it
alone first and, on a successful fetch, answer from it via processStreamData; on its
failure clear the sticky value and race every instance of instancesToTry (the failed
sticky instance included, at the front); with no sticky instance race the plain list.
All Piped failures fall back to yt-dlp. The video id only selects the response through
env, which is per-id by construction. -/
def fetchStreamInfo (env : String → Option PipedData) (fallback : StreamProviderResult)
    (sticky : Option String) : FetchOutcome :=
  let toTry := instancesToTry sticky
  match sticky with
  | some lw =>
    (match env lw with
     | some d =>
       let (res, sticky2) := processStreamData d lw (some lw)
       { result := res, sticky := sticky2, contacts := [lw], usedFallback := false }
     | none => raceInstances env fallback toTry [lw])
  | none => raceInstances env fallback toTry []

/-! ## getStreamUrl (main playback entry point)

State: the byte-cache directory and the sticky Piped instance. Environment: the Piped
responses, the yt-dlp fallback result, and the CDN download returning the byte count of
the fetched body (none for a non-OK status or an abort). Date.now within one call is a
single timestamp now. The emitted filesystem operations are recorded for the
atomicity claims. -/

/-- The cache directory path (app.getPath of temp joined with nora-audio-cache). -/
def CACHE_DIR : String := "/tmp/nora-audio-cache"

/-- The extensions probed by the byte-cache check, in source order. -/
def CACHE_EXTS : List String := [".m4a", ".opus", ".webm"]

/-- A filesystem write operation on the cache directory. -/
inductive FsOp where
  | write (name : String) (bytes : Nat)
  | rename (src : String) (dst : String)
deriving DecidableEq, Repr

/-- The environment of one resolution: Piped responses per instance, the yt-dlp fallback
result, and the CDN download byte count per format url. -/
structure StreamEnv where
  piped : String → Option PipedData
  fallback : StreamProviderResult
  download : String → Option Nat

/-- The mutable module state getStreamUrl reads and writes: the byte-cache directory
listing and the remembered lastWorkingInstance. -/
structure StreamState where
  files : List CacheFile
  sticky : Option String

/-- The outcome of one getStreamUrl call. -/
structure StreamResult where
  url : Option String
  state : StreamState
  contacts : List String
  usedFallback : Bool
  fsOps : List FsOp

/-- The nora local-file reference returned for a cached file name. -/
def noraUrl (name : String) : String :=
  "nora://localfiles/" ++ CACHE_DIR ++ "/" ++ name

/-- The byte-cache probe of getStreamUrl: for each extension in order, if the file
exists, is younger than one hour by mtime and larger than 100000 bytes, answer with its
local reference; a stale or small file lets the loop continue with the next extension. -/
def cacheHit (now : Int) (files : List CacheFile) (videoId : String) : Option String :=
  CACHE_EXTS.findSome? fun ext =>
    match files.find? (fun f => f.name = videoId ++ ext) with
    | none => none
    | some f =>
      if now - f.mtime < 3600000 ∧ f.size > 100000 then some (noraUrl (videoId ++ ext))
      else none

/-- fs.writeFileSync: overwrite the entry of that name, or create it. -/
def writeFile (files : List CacheFile) (f : CacheFile) : List CacheFile :=
  if files.any (fun g => g.name = f.name) then
    files.map (fun g => if g.name = f.name then f else g)
  else
    files ++ [f]

/-- getStreamUrl: normalize the id; answer from the byte cache when the probe hits;
otherwise resolve via fetchStreamInfo, select with getHighestQualityAudio, reject a
missing or url-less selection, download the format body and, when it is non-empty,
write it in one writeFileSync to the final cache path and answer with the local
reference. Every failure path returns null having written nothing. -/
def getStreamUrl (env : StreamEnv) (now : Int) (st : StreamState) (videoId : String) :
    StreamResult :=
  let cleanVideoId := cleanMPED videoId
  match cacheHit now st.files cleanVideoId with
  | some u => { url := some u, state := st, contacts := [], usedFallback := false, fsOps := [] }
  | none =>
    let fo := fetchStreamInfo env.piped env.fallback st.sticky
    let st1 : StreamState := { files := st.files, sticky := fo.sticky }
    let failed : StreamResult :=
      { url := none, state := st1, contacts := fo.contacts, usedFallback := fo.usedFallback,
        fsOps := [] }
    if fo.result.playable = false then failed
    else
      match fo.result.audioFormats with
      | none => failed
      | some formats =>
        match getHighestQualityAudio formats with
        | none => failed
        | some bestAudio =>
          if bestAudio.url = "" then failed
          else
            let ext := if bestAudio.audioCodec = Codec.mp4a then ".m4a" else ".webm"
            let name := cleanVideoId ++ ext
            match env.download bestAudio.url with
            | none => failed
            | some len =>
              if len = 0 then failed
              else
                { url := some (noraUrl name),
                  state := { files := writeFile st.files ⟨name, now, now, len⟩,
                             sticky := fo.sticky },
                  contacts := fo.contacts, usedFallback := fo.usedFallback,
                  fsOps := [FsOp.write name len] }

/-- The download-and-store tail of prefetchSingle (its response handling): on an OK
response whose body is non-empty, one direct writeFileSync to the final cache path;
nothing otherwise. Returns the directory state and the filesystem operations emitted. -/
def prefetchStore (files : List CacheFile) (now : Int) (name : String) (dl : Option Nat) :
    List CacheFile × List FsOp :=
  match dl with
  | none => (files, [])
  | some len =>
    if len = 0 then (files, [])
    else (writeFile files ⟨name, now, now, len⟩, [FsOp.write name len])

/-! ## getYouTubeStreamUrl (Innertube client cascade with in-memory URL memo) -/

/-- The Innertube client variants tried by the cascade, in priority order. -/
inductive ClientType where
  | android
  | web
  | ios
deriving DecidableEq, Repr

/-- URL_CACHE_TTL = 30 minutes, in milliseconds. -/
def URL_CACHE_TTL : Int := 30 * 60 * 1000

/-- One urlCache entry. -/
structure CachedUrl where
  url : String
  cachedAt : Int
deriving DecidableEq, Repr

/-- The in-memory urlCache map, as an association list keyed by video id. -/
abbrev UrlCache := List (String × CachedUrl)

/-- Map.get. -/
def urlCacheGet (cache : UrlCache) (videoId : String) : Option CachedUrl :=
  (cache.filter (fun p => p.fst = videoId)).head? |>.map Prod.snd

/-- Map.set: overwrite the entry or append it. -/
def urlCacheSet (cache : UrlCache) (videoId : String) (e : CachedUrl) : UrlCache :=
  if cache.any (fun p => p.fst = videoId) then
    cache.map (fun p => if p.fst = videoId then (videoId, e) else p)
  else
    cache ++ [(videoId, e)]

/-- The client cascade of getYouTubeStreamUrl after a memo miss: try the ANDROID, WEB
and IOS clients in that order (clients abstracts tryGetAudioWithClient per client type),
stopping at the first that yields a url, memoizing it at the current time; on total
failure return null leaving the memo untouched. Returns the result, the memo afterwards,
and the clients attempted. -/
def ytAttempt (clients : ClientType → Option String) (now : Int) (cache : UrlCache)
    (videoId : String) : Option String × UrlCache × List ClientType :=
  match clients ClientType.android with
  | some u => (some u, urlCacheSet cache videoId ⟨u, now⟩, [ClientType.android])
  | none =>
    match clients ClientType.web with
    | some u => (some u, urlCacheSet cache videoId ⟨u, now⟩,
                 [ClientType.android, ClientType.web])
    | none =>
      match clients ClientType.ios with
      | some u => (some u, urlCacheSet cache videoId ⟨u, now⟩,
                   [ClientType.android, ClientType.web, ClientType.ios])
      | none => (none, cache, [ClientType.android, ClientType.web, ClientType.ios])

/-- getYouTubeStreamUrl: answer from the urlCache when the entry is younger than
URL_CACHE_TTL; otherwise run the client cascade. -/
def getYouTubeStreamUrl (clients : ClientType → Option String) (now : Int)
    (cache : UrlCache) (videoId : String) :
    Option String × UrlCache × List ClientType :=
  match urlCacheGet cache videoId with
  | some e =>
    if now - e.cachedAt < URL_CACHE_TTL then (some e.url, cache, [])
    else ytAttempt clients now cache videoId
  | none => ytAttempt clients now cache videoId

/-! ## Prefetch scheduler (prefetchVideos / processNextPrefetch / prefetchSingle)

The synchronous phase of prefetchVideos is modelled: the enqueue loop appending cleaned
ids that are neither cached nor in flight nor queued, then the drain loop that, while
fewer than MAX_CONCURRENT_PREFETCH downloads are active and the queue is non-empty,
shifts the head and runs the synchronous front of prefetchSingle (the re-check of the
cache and in-flight set, then the in-flight registration and the start of the actual
download). Ids whose download starts are recorded in started. isVideoCached is
abstracted as the cached predicate. -/

/-- MAX_CONCURRENT_PREFETCH = 2. -/
def MAX_CONCURRENT_PREFETCH : Nat := 2

/-- The module-level prefetch state: the pending queue, the in-flight set, the active
download counter, and the record of downloads actually started. -/
structure PrefetchState where
  queue : List String
  inProgress : List String
  active : Nat
  started : List String
deriving DecidableEq, Repr

/-- One iteration of the enqueue loop of prefetchVideos: clean the id and append it
only when it is not cached, not in flight and not already queued. -/
def enqueueStep (cached : String → Bool) (st : PrefetchState) (videoId : String) :
    PrefetchState :=
  let cleanId := cleanMPED videoId
  if ¬ cached cleanId ∧ cleanId ∉ st.inProgress ∧ cleanId ∉ st.queue then
    { st with queue := st.queue ++ [cleanId] }
  else st

/-- The drain loop, with fuel bounding the number of iterations (each iteration shifts
one queued id, so the initial queue length suffices): while the active count is below
MAX_CONCURRENT_PREFETCH and the queue is non-empty, shift the head; prefetchSingle then
returns at once when the id is cached or already in flight, and otherwise registers it
in flight, bumps the active counter and starts its download. -/
def drainGo (cached : String → Bool) : Nat → PrefetchState → PrefetchState
  | 0, st => st
  | fuel + 1, st =>
    if st.active < MAX_CONCURRENT_PREFETCH then
      match st.queue with
      | [] => st
      | id :: rest =>
        if cached id ∨ id ∈ st.inProgress then
          drainGo cached fuel { st with queue := rest }
        else
          drainGo cached fuel
            { queue := rest, inProgress := st.inProgress ++ [id],
              active := st.active + 1, started := st.started ++ [id] }
    else st

/-- prefetchVideos: the enqueue loop over the incoming ids, then the drain loop. -/
def prefetchVideos (cached : String → Bool) (st : PrefetchState) (videoIds : List String) :
    PrefetchState :=
  let st1 := videoIds.foldl (enqueueStep cached) st
  drainGo cached st1.queue.length st1

/-! ## Derived measures and concrete instances used by the theorems -/

/-- Total size in bytes of the unprotected files of a list. -/
def totalSizeUnprot (pset : List String) (files : List CacheFile) : Nat :=
  totalSize (files.filter (fun f => isProt pset f = false))

/-- One day in milliseconds. -/
def dayMs : Int := 86400000

/-- Scenario file x: protected, last used 40 days before the sweep at 41 days. -/
def protFile : CacheFile := ⟨"x.m4a", dayMs, dayMs, 1000⟩

/-- Scenario file y: unprotected, last used 25 days before the sweep at 41 days. -/
def staleFile : CacheFile := ⟨"y.m4a", 16 * dayMs, 16 * dayMs, 1000⟩

/-- One gigabyte. -/
def gigabyte : Nat := 1024 * 1024 * 1024

/-- Size-pass probe file: the oldest by last access (atime 0) but recently modified. -/
def oldAccessFile : CacheFile := ⟨"a.m4a", 100, 0, 3 * gigabyte⟩

/-- Size-pass probe file: younger by last access (atime 50) but long unmodified. -/
def newAccessFile : CacheFile := ⟨"b.m4a", 10, 50, 3 * gigabyte⟩

/-- An m4a format with the designated itag 140 and the lower bitrate. -/
def m4aFmt : AudioFormat := ⟨140, Codec.mp4a, 128000, 100, "https://u1", 1, "audio/mp4", "128kbps"⟩

/-- An opus format with the designated itag 251 and the higher bitrate. -/
def opusFmt : AudioFormat := ⟨251, Codec.opus, 160000, 100, "https://u2", 1, "audio/webm", "160kbps"⟩

/-- A non-preferred first format whose url expires at epoch second 1000. -/
def expFmtA : AudioFormat := ⟨0, Codec.mp4a, 1, 0, "https://cdn.example/a?expire=1000", 0, "", ""⟩

/-- The preferred (itag 251) second format whose url expires at epoch second 2000. -/
def expFmtB : AudioFormat := ⟨251, Codec.opus, 2, 0, "https://cdn.example/b?expire=2000", 0, "", ""⟩

/-- A cache row that is already expired at time 600. -/
def expiredRow : CacheRow := ⟨"vid", [m4aFmt], 0, 500, none, none⟩

/-- The first (most reliable) Piped instance. -/
def inst0 : String := "https://pipedapi.in.projectsegfau.lt"

/-- The yt-dlp fallback outcome when it too fails. -/
def failRes : StreamProviderResult := ⟨false, "All streaming sources unavailable", none⟩

/-- A raw Piped stream with a usable url, itag 140 and an mp4 codec string. -/
def okRaw : RawStream :=
  ⟨some 140, some "mp4a.40.2", some "audio/mp4", some 128000,
   some "https://cdn.example/a", some 50000, some "128kbps"⟩

/-- A Piped response carrying the single usable stream. -/
def okData : PipedData := ⟨some 100, [okRaw]⟩

/-- Environment: the first instance answers, the CDN body is 50000 bytes (below the
byte-cache minimum-size threshold). -/
def smallEnv : StreamEnv :=
  ⟨fun i => if i = inst0 then some okData else none, failRes, fun _ => some 50000⟩

/-- Environment: the first instance answers, the CDN body is 200000 bytes. -/
def bigEnv : StreamEnv :=
  ⟨fun i => if i = inst0 then some okData else none, failRes, fun _ => some 200000⟩

/-- Environment in which every provider tier fails. -/
def failEnv : StreamEnv := ⟨fun _ => none, failRes, fun _ => none⟩

/-- The initial module state: empty byte cache, no remembered instance. -/
def emptyState : StreamState := ⟨[], none⟩

/-- Discriminator for rename operations. -/
def isRenameOp : FsOp → Bool
  | FsOp.rename _ _ => true
  | FsOp.write _ _ => false

/-! ## Helper lemmas -/

theorem lookupRow_mem {dbase : List CacheRow} {videoId : String} {r : CacheRow}
    (h : lookupRow dbase videoId = some r) : r ∈ dbase ∧ r.videoId = videoId := by
  unfold lookupRow at h
  cases hf : dbase.filter (fun x => x.videoId = videoId) with
  | nil => rw [hf] at h; simp at h
  | cons a t =>
    rw [hf] at h
    simp only [List.head?] at h
    obtain rfl : a = r := Option.some_inj.mp h
    have hmem : a ∈ dbase.filter (fun x => x.videoId = videoId) := by
      rw [hf]; exact List.mem_cons_self a t
    have := List.mem_filter.mp hmem
    exact ⟨this.1, by simpa using this.2⟩

theorem mem_agePass_of_prot {pset : List String} {f : CacheFile} (h : isProt pset f = true)
    {files : List CacheFile} (hf : f ∈ files) (now : Int) : f ∈ agePass pset now files := by
  unfold agePass
  exact List.mem_filter.mpr ⟨hf, by simp [h]⟩

theorem mem_sizePass_of_prot {pset : List String} {f : CacheFile} (h : isProt pset f = true) :
    ∀ (total : Nat) (l : List CacheFile), f ∈ l → f ∈ sizePass pset total l := by
  intro total l
  induction l generalizing total with
  | nil => simp
  | cons g rest ih =>
    intro hf
    unfold sizePass
    split
    · exact hf
    · split
      · exact hf
      · rcases List.mem_cons.mp hf with rfl | hf2
        · rename_i hprot
          simp [h] at hprot
        · exact ih _ hf2

theorem sizePass_suffix (pset : List String) :
    ∀ (total : Nat) (l : List CacheFile), ∃ deleted,
      l = deleted ++ sizePass pset total l ∧ ∀ d ∈ deleted, isProt pset d = false := by
  intro total l
  induction l generalizing total with
  | nil => exact ⟨[], by simp [sizePass]⟩
  | cons g rest ih =>
    unfold sizePass
    split
    · exact ⟨[], by simp⟩
    · split
      · exact ⟨[], by simp⟩
      · rcases ih (total - g.size) with ⟨del, hdel, hprot⟩
        refine ⟨g :: del, by simpa using hdel, ?_⟩
        intro d hd
        rcases List.mem_cons.mp hd with rfl | hd2
        · rename_i hp
          simpa using hp
        · exact hprot d hd2

theorem totalSize_filter_le (p : CacheFile → Bool) :
    ∀ l : List CacheFile, totalSize (l.filter p) ≤ totalSize l := by
  intro l
  induction l with
  | nil => simp [totalSize]
  | cons f rest ih =>
    by_cases hp : p f
    · simpa [totalSize, List.filter_cons, hp] using Nat.add_le_add_left ih f.size
    · simp only [totalSize, List.filter_cons, hp] at ih ⊢
      simp only [Bool.false_eq_true, if_false]
      calc ((rest.filter p).map CacheFile.size).sum ≤ ((rest.map CacheFile.size)).sum := ih
        _ ≤ f.size + (rest.map CacheFile.size).sum := Nat.le_add_left _ _

theorem prot_of_janitorOrder {pset : List String} {f g : CacheFile}
    (h : janitorOrder pset f g) (hf : isProt pset f = true) : isProt pset g = true := by
  rcases h with h | ⟨e, _⟩
  · rw [hf] at h
    cases hg : isProt pset g
    · rw [hg] at h; simp at h
    · rfl
  · rw [← e, hf]

theorem sizePass_unprot_le (pset : List String) :
    ∀ l : List CacheFile, l.Sorted (janitorOrder pset) →
      totalSizeUnprot pset (sizePass pset (totalSize l) l) ≤ maxCacheBytes := by
  intro l
  induction l with
  | nil => intro _; simp [sizePass, totalSizeUnprot, totalSize]
  | cons f rest ih =>
    intro hs
    unfold sizePass
    split
    · rename_i hle
      calc totalSizeUnprot pset (f :: rest) ≤ totalSize (f :: rest) :=
            totalSize_filter_le _ _
        _ ≤ maxCacheBytes := hle
    · split
      · rename_i hle hprot
        have hall : ∀ g ∈ f :: rest, isProt pset g = true := by
          intro g hg
          rcases List.mem_cons.mp hg with rfl | hg2
          · exact hprot
          · exact prot_of_janitorOrder ((List.sorted_cons.mp hs).1 g hg2) hprot
        have hnil : (f :: rest).filter (fun g => !isProt pset g) = [] := by
          rw [List.filter_eq_nil_iff]
          intro g hg
          simp [hall g hg]
        simp [totalSizeUnprot, hnil, totalSize]
      · have hsum : totalSize (f :: rest) - f.size = totalSize rest := by
          simp only [totalSize, List.map_cons, List.sum_cons]
          omega
        rw [hsum]
        exact ih (List.sorted_cons.mp hs).2

theorem prot_mem_cleanupCache {pset : List String} {f : CacheFile}
    (h : isProt pset f = true) {files : List CacheFile} (hf : f ∈ files) (now : Int) :
    f ∈ cleanupCache pset now files := by
  unfold cleanupCache
  apply mem_sizePass_of_prot h
  exact ((agePass pset now files).perm_insertionSort (janitorOrder pset)).mem_iff.mpr
    (mem_agePass_of_prot h hf now)

/-! ## Claim theorems -/

/-- C2: whenever getCachedStreamInfo returns formats, the row it read satisfies
now < expiresAt; and whenever the lookup finds a row with now >= expiresAt, the call
returns none and the database afterwards equals the one with that video id deleted (so
no row for the id remains). -/
theorem C2_metadata_cache_expiry : ∀ (now : Int) (dbase : List CacheRow) (videoId : String),
    (∀ fmts, (getCachedStreamInfo now dbase videoId).1 = some fmts →
      ∃ r, r ∈ dbase ∧ r.videoId = videoId ∧ now < r.expiresAt ∧ fmts = r.audioFormats) ∧
    (∀ r, lookupRow dbase videoId = some r → now ≥ r.expiresAt →
      (getCachedStreamInfo now dbase videoId).1 = none ∧
      (getCachedStreamInfo now dbase videoId).2 = deleteCachedStreamInfo dbase videoId ∧
      ∀ r2 ∈ (getCachedStreamInfo now dbase videoId).2, r2.videoId ≠ videoId) := by
  intro now dbase videoId
  constructor
  · intro fmts h
    unfold getCachedStreamInfo at h
    cases hl : lookupRow dbase videoId with
    | none => rw [hl] at h; simp at h
    | some cached =>
      rw [hl] at h
      by_cases hexp : now ≥ cached.expiresAt
      · simp [hexp] at h
      · simp only [hexp, if_false] at h
        rcases lookupRow_mem hl with ⟨hmem, hid⟩
        exact ⟨cached, hmem, hid, lt_of_not_le hexp, (Option.some_inj.mp h).symm⟩
  · intro r hl hexp
    have h1 : getCachedStreamInfo now dbase videoId =
        (none, deleteCachedStreamInfo dbase videoId) := by
      unfold getCachedStreamInfo
      rw [hl]
      simp [hexp]
    refine ⟨by rw [h1], by rw [h1], ?_⟩
    intro r2 hr2
    rw [h1] at hr2
    have := List.mem_filter.mp hr2
    simpa using this.2

/-- C2 witness: at time 600 the lookup of the row expiring at 500 returns none and
deletes the row. -/
theorem C2_witness :
    (getCachedStreamInfo 600 [expiredRow] "vid").1 = none ∧
    (getCachedStreamInfo 600 [expiredRow] "vid").2 = deleteCachedStreamInfo [expiredRow] "vid" := by
  have h := (C2_metadata_cache_expiry 600 [expiredRow] "vid").2 expiredRow (by decide) (by decide)
  exact ⟨h.1, h.2.1⟩

/-- C6: files of protected identifiers survive every sequence of janitor sweeps,
whatever their age and whatever the total cache size; and in the spec scenario
(ProtectedSet x, x unused 40 days, y unused 25 days, max-age 20 days) one sweep at day
41 deletes exactly y. -/
theorem C6_protected_survive :
    (∀ (pset : List String) (ts : List Int) (files : List CacheFile) (f : CacheFile),
      f ∈ files → isProt pset f = true → f ∈ sweeps pset ts files) ∧
    cleanupCache ["x"] (41 * dayMs) [protFile, staleFile] = [protFile] := by
  constructor
  · intro pset ts
    induction ts with
    | nil => intro files f hf _; simpa [sweeps] using hf
    | cons t ts ih =>
      intro files f hf hp
      exact ih (cleanupCache pset t files) f (prot_mem_cleanupCache hp hf t) hp
  · decide

/-- C6 witness: the scenario file x, protected and 40 days unused, survives three
consecutive sweeps. -/
theorem C6_witness :
    protFile ∈ sweeps ["x"] [41 * dayMs, 42 * dayMs, 43 * dayMs] [protFile, staleFile] :=
  C6_protected_survive.1 ["x"] [41 * dayMs, 42 * dayMs, 43 * dayMs] [protFile, staleFile]
    protFile (by decide) (by decide)

/-- C7 counterexample: with the budget exceeded, the size pass orders candidates by
max(mtime, atime), not by last access: the file with the strictly oldest last-access
time (atime 0, mtime 100) survives the sweep while the file with the younger last-access
time (atime 50, mtime 10) is the one deleted — so the pass does not delete unprotected
files in oldest-by-last-access-first order as the claim states. -/
theorem C7_counterexample :
    cleanupCache [] 1000000 [oldAccessFile, newAccessFile] = [oldAccessFile] ∧
    oldAccessFile.atime < newAccessFile.atime ∧
    isProt [] newAccessFile = false := by decide

/-- C7 amended: after any single sweep the total bytes of remaining unprotected files
is at most the budget (unconditionally — the stop-at-protected exit leaves zero
unprotected bytes, so the exception the claim allows is never needed); the size pass
deletes only unprotected files, in oldest-by-last-used-first order where last-used is
max(mtime, atime); and protected files are never touched. -/
theorem C7_size_budget : ∀ (pset : List String) (now : Int) (files : List CacheFile),
    totalSizeUnprot pset (cleanupCache pset now files) ≤ maxCacheBytes ∧
    (∃ deleted,
      (agePass pset now files).insertionSort (janitorOrder pset) =
        deleted ++ cleanupCache pset now files ∧
      ∀ d ∈ deleted, isProt pset d = false ∧
        ∀ s ∈ cleanupCache pset now files, isProt pset s = false → lastUsed d ≤ lastUsed s) ∧
    (∀ f ∈ files, isProt pset f = true → f ∈ cleanupCache pset now files) := by
  intro pset now files
  have hcc : cleanupCache pset now files =
      sizePass pset (totalSize ((agePass pset now files).insertionSort (janitorOrder pset)))
        ((agePass pset now files).insertionSort (janitorOrder pset)) := rfl
  have hsorted : ((agePass pset now files).insertionSort (janitorOrder pset)).Sorted
      (janitorOrder pset) := List.sorted_insertionSort _ _
  refine ⟨?_, ?_, ?_⟩
  · rw [hcc]
    exact sizePass_unprot_le pset _ hsorted
  · rcases sizePass_suffix pset
        (totalSize ((agePass pset now files).insertionSort (janitorOrder pset)))
        ((agePass pset now files).insertionSort (janitorOrder pset)) with ⟨del, hdel, hup⟩
    refine ⟨del, by rw [hcc]; exact hdel, ?_⟩
    intro d hd
    refine ⟨hup d hd, ?_⟩
    intro s hs hsp
    have hpair := hsorted
    rw [hdel] at hpair
    have hr : janitorOrder pset d s :=
      (List.pairwise_append.mp hpair).2.2 d hd s (by rw [hcc] at hs; exact hs)
    rcases hr with h | ⟨_, hle⟩
    · rw [hup d hd, hsp] at h
      simp at h
    · exact hle
  · intro f hf hp
    exact prot_mem_cleanupCache hp hf now

/-- C7 witness: the budget bound at the size-pass probe input, and the protected
scenario file surviving its sweep. -/
theorem C7_witness :
    totalSizeUnprot [] (cleanupCache [] 1000000 [oldAccessFile, newAccessFile]) ≤
      maxCacheBytes ∧
    protFile ∈ cleanupCache ["x"] (41 * dayMs) [protFile, staleFile] :=
  ⟨(C7_size_budget [] 1000000 [oldAccessFile, newAccessFile]).1,
   (C7_size_budget ["x"] (41 * dayMs) [protFile, staleFile]).2.2 protFile (by decide) (by decide)⟩

/-- C4 counterexample: both formats carry the designated itags (251 and 140) and
reachable urls, the itag-251 format has the strictly higher bitrate, yet the selector
returns the lower-bitrate itag-140 format because it takes the first preferred itag in
list order — ties among designated formats are not broken by highest bitrate (nor is
the opus codec of itag 251 preferred). -/
theorem C4_counterexample :
    getHighestQualityAudio [m4aFmt, opusFmt] = some m4aFmt ∧
    m4aFmt.bitrate < opusFmt.bitrate ∧
    opusFmt.itag = 251 ∧ opusFmt.url ≠ "" ∧ m4aFmt.url ≠ "" := by decide

/-- C4 amended: the selector returns the first format in list order whose itag is 251
or 140, regardless of bitrate; only when no such format exists does it return a format
of maximal bitrate; and every format reaching it through the Piped pipeline
(processStreamData) carries a non-empty url, so a url-less format is never produced for
selection there. -/
theorem C4_format_selection :
    (∀ (formats : List AudioFormat) (p : AudioFormat),
      formats.find? (fun f => f.itag == 251 || f.itag == 140) = some p →
      getHighestQualityAudio formats = some p) ∧
    (∀ formats : List AudioFormat, formats ≠ [] →
      formats.find? (fun f => f.itag == 251 || f.itag == 140) = none →
      ∃ m, getHighestQualityAudio formats = some m ∧ m ∈ formats ∧
        ∀ f ∈ formats, f.bitrate ≤ m.bitrate) ∧
    (∀ (data : PipedData) (inst : String) (sticky : Option String) (fmts : List AudioFormat),
      (processStreamData data inst sticky).1.audioFormats = some fmts →
      ∀ f ∈ fmts, f.url ≠ "") := by
  refine ⟨?_, ?_, ?_⟩
  · intro formats p h
    cases formats with
    | nil => simp at h
    | cons a l => simp [getHighestQualityAudio, h]
  · intro formats hne hfind
    have hgq : getHighestQualityAudio formats = (formats.insertionSort bitrateDesc).head? := by
      cases formats with
      | nil => exact absurd rfl hne
      | cons a l => simp only [getHighestQualityAudio, hfind]
    cases hsorted : formats.insertionSort bitrateDesc with
    | nil =>
      have hperm := List.perm_insertionSort bitrateDesc formats
      rw [hsorted] at hperm
      exact absurd hperm.symm.eq_nil hne
    | cons m rest =>
      have hperm := List.perm_insertionSort bitrateDesc formats
      rw [hsorted] at hperm
      refine ⟨m, ?_, ?_, ?_⟩
      · rw [hgq, hsorted]
        rfl
      · exact hperm.mem_iff.mp (List.mem_cons_self m rest)
      · intro f hf
        have hf2 : f ∈ m :: rest := hperm.mem_iff.mpr hf
        have hsort := List.sorted_insertionSort bitrateDesc formats
        rw [hsorted] at hsort
        rcases List.mem_cons.mp hf2 with rfl | hf3
        · exact le_refl _
        · exact (List.sorted_cons.mp hsort).1 f hf3
  · intro data inst sticky fmts h f hf
    unfold processStreamData at h
    by_cases hemp :
        ((data.audioStreams.filter (fun s => jsTruthy s.url)).map (mkFormat data)).isEmpty
    · simp [hemp] at h
    · simp only [hemp, if_false] at h
      have hfmts : fmts = (data.audioStreams.filter (fun s => jsTruthy s.url)).map
          (mkFormat data) := by
        exact (Option.some_inj.mp h).symm
      rw [hfmts] at hf
      rcases List.mem_map.mp hf with ⟨s, hs, rfl⟩
      have := (List.mem_filter.mp hs).2
      cases hu : s.url with
      | none => rw [hu] at this; simp [jsTruthy] at this
      | some u =>
        rw [hu] at this
        simp only [jsTruthy, decide_eq_true_eq] at this
        simpa [mkFormat, hu] using this

/-- C4 witness: the first-preferred-itag rule applied where the preferred format leads
the list. -/
theorem C4_witness :
    ([opusFmt, m4aFmt].find? (fun f => f.itag == 251 || f.itag == 140) = some opusFmt) ∧
    getHighestQualityAudio [opusFmt, m4aFmt] = some opusFmt :=
  ⟨by decide, C4_format_selection.1 [opusFmt, m4aFmt] opusFmt (by decide)⟩

theorem lookupRow_mapRep (row : CacheRow) (videoId : String) (hrow : row.videoId = videoId) :
    ∀ l : List CacheRow, l.any (fun r => r.videoId = videoId) = true →
      lookupRow (l.map (fun r => if r.videoId = videoId then row else r)) videoId =
        some row := by
  intro l
  induction l with
  | nil => simp
  | cons r t ih =>
    intro hany
    by_cases hr : r.videoId = videoId
    · simp [lookupRow, List.filter_cons, hr, hrow]
    · have hany2 : t.any (fun x => x.videoId = videoId) = true := by
        simpa [hr] using hany
      have := ih hany2
      simpa [lookupRow, List.filter_cons, hr] using this

theorem lookupRow_save (now : Int) (dbase : List CacheRow) (videoId : String)
    (fmts : List AudioFormat) (title : Option String) (dur : Option Int) (e : Int)
    (h : computeExpiresAt now fmts = some e) :
    lookupRow (saveStreamInfoToCache now dbase videoId fmts title dur) videoId =
      some ⟨videoId, fmts, now, e, title, dur⟩ := by
  unfold saveStreamInfoToCache
  rw [h]
  cases hany : dbase.any (fun r => r.videoId = videoId) with
  | true =>
    simp only [hany, if_true]
    exact lookupRow_mapRep ⟨videoId, fmts, now, e, title, dur⟩ videoId rfl dbase hany
  | false =>
    simp only [hany, Bool.false_eq_true, if_false]
    unfold lookupRow
    rw [List.filter_append]
    have hnil : dbase.filter (fun r => r.videoId = videoId) = [] := by
      rw [List.filter_eq_nil_iff]
      intro r hr
      have := List.any_eq_false.mp hany r hr
      simpa using this
    rw [hnil]
    simp

/-- C5 counterexample: with two formats whose urls expire at epoch seconds 1000 and
2000 respectively, the chosen (best) format is the second one, yet the stored expiresAt
is 1000*1000 - 300000 = 700000 milliseconds — derived from the FIRST format of the
list, not from the chosen format, and different from the chosen format's
epoch - 5 minutes. -/
theorem C5_counterexample :
    getHighestQualityAudio [expFmtA, expFmtB] = some expFmtB ∧
    searchParamGet expFmtB.url "expire" = some "2000" ∧
    (lookupRow (saveStreamInfoToCache 0 [] "v" [expFmtA, expFmtB] none none) "v").map
      CacheRow.expiresAt = some 700000 ∧
    (700000 : Int) ≠ 2000 * 1000 - 5 * 60 * 1000 := by decide

/-- C5 amended: the expiresAt stored by saveStreamInfoToCache is derived from the FIRST
format of the list: when that format's url carries a parseable expire parameter the row
is upserted with expiresAt = expire * 1000 - 5 minutes, and when the parameter is absent
with expiresAt = now + 6 hours (the fixed default TTL); the spec scenario equality
expiresAt = epoch - 5min therefore holds exactly when the best format is the list head
or shares its expire value. -/
theorem C5_cache_expiry_derivation :
    (∀ (now : Int) (dbase : List CacheRow) (videoId : String) (f : AudioFormat)
        (rest : List AudioFormat) (title : Option String) (dur : Option Int)
        (v : String) (n : Nat),
      f.url ≠ "" → urlWellFormed f.url = true →
      searchParamGet f.url "expire" = some v → v ≠ "" → jsParseIntDigits v = some n →
      lookupRow (saveStreamInfoToCache now dbase videoId (f :: rest) title dur) videoId =
        some ⟨videoId, f :: rest, now, (n : Int) * 1000 - 5 * 60 * 1000, title, dur⟩) ∧
    (∀ (now : Int) (dbase : List CacheRow) (videoId : String) (f : AudioFormat)
        (rest : List AudioFormat) (title : Option String) (dur : Option Int),
      f.url ≠ "" → urlWellFormed f.url = true →
      searchParamGet f.url "expire" = none →
      lookupRow (saveStreamInfoToCache now dbase videoId (f :: rest) title dur) videoId =
        some ⟨videoId, f :: rest, now, now + 6 * 60 * 60 * 1000, title, dur⟩) := by
  constructor
  · intro now dbase videoId f rest title dur v n hurl hwf hparam hv hparse
    apply lookupRow_save
    unfold computeExpiresAt
    simp [hurl, hwf, hparam, hv, hparse]
  · intro now dbase videoId f rest title dur hurl hwf hparam
    apply lookupRow_save
    unfold computeExpiresAt
    simp [hurl, hwf, hparam]

/-- C5 witness: the upsert of the counterexample format list stores
1000 * 1000 - 5min, read back by lookupRow. -/
theorem C5_witness :
    lookupRow (saveStreamInfoToCache 0 [] "v" [expFmtA, expFmtB] none none) "v" =
      some ⟨"v", [expFmtA, expFmtB], 0, (1000 : Int) * 1000 - 5 * 60 * 1000, none, none⟩ :=
  C5_cache_expiry_derivation.1 0 [] "v" expFmtA [expFmtB] none none "1000" 1000
    (by decide) (by decide) (by decide) (by decide) (by decide)

/-- C3 counterexample: with every instance failing and the first Piped instance
remembered as sticky, the resolver contacts the sticky instance, then races the FULL
reordered instance list — so the just-failed sticky instance is contacted a second time
inside the race; the claim that only the remaining fast providers are raced after the
sticky failure is false. -/
theorem C3_counterexample :
    (fetchStreamInfo (fun _ => none) failRes (some inst0)).contacts.count inst0 = 2 ∧
    (fetchStreamInfo (fun _ => none) failRes (some inst0)).contacts =
      inst0 :: PIPED_INSTANCES := by decide

/-- C3 amended: when a sticky instance is remembered it is fetched alone first and a
successful fetch is answered from it without contacting anyone else; on its failure the
sticky value is cleared and ALL instances of the reordered list (the failed sticky
included, at the front) are raced, the first success winning; and any playable
processStreamData result makes its producing instance the new remembered sticky. -/
theorem C3_sticky_provider : ∀ (env : String → Option PipedData)
    (fb : StreamProviderResult) (lw : String),
    (∀ d, env lw = some d →
      fetchStreamInfo env fb (some lw) =
        ⟨(processStreamData d lw (some lw)).1, (processStreamData d lw (some lw)).2,
         [lw], false⟩) ∧
    (env lw = none →
      (fetchStreamInfo env fb (some lw)).contacts = lw :: instancesToTry (some lw) ∧
      ((∃ w d2, (instancesToTry (some lw)).findSome?
            (fun i => (env i).map (fun d => (i, d))) = some (w, d2) ∧
          (fetchStreamInfo env fb (some lw)).result = (processStreamData d2 w none).1 ∧
          (fetchStreamInfo env fb (some lw)).sticky = (processStreamData d2 w none).2) ∨
        ((∀ i ∈ instancesToTry (some lw), env i = none) ∧
          (fetchStreamInfo env fb (some lw)).result = fb ∧
          (fetchStreamInfo env fb (some lw)).usedFallback = true ∧
          (fetchStreamInfo env fb (some lw)).sticky = none))) ∧
    (∀ (data : PipedData) (inst : String) (sticky : Option String)
        (fmts : List AudioFormat),
      (processStreamData data inst sticky).1.audioFormats = some fmts →
      (processStreamData data inst sticky).2 = some inst) := by
  intro env fb lw
  refine ⟨?_, ?_, ?_⟩
  · intro d hd
    unfold fetchStreamInfo
    dsimp only
    rw [hd]
  · intro hd
    have hfetch : fetchStreamInfo env fb (some lw) =
        raceInstances env fb (instancesToTry (some lw)) [lw] := by
      unfold fetchStreamInfo
      dsimp only
      rw [hd]
    cases hw : (instancesToTry (some lw)).findSome?
        (fun i => (env i).map (fun d => (i, d))) with
    | some pair =>
      obtain ⟨w, d2⟩ := pair
      have hrace : raceInstances env fb (instancesToTry (some lw)) [lw] =
          { result := (processStreamData d2 w none).1,
            sticky := (processStreamData d2 w none).2,
            contacts := [lw] ++ instancesToTry (some lw), usedFallback := false } := by
        unfold raceInstances
        rw [hw]
      rw [hfetch, hrace]
      exact ⟨rfl, Or.inl ⟨w, d2, rfl, rfl, rfl⟩⟩
    | none =>
      have hrace : raceInstances env fb (instancesToTry (some lw)) [lw] =
          { result := fb, sticky := none,
            contacts := [lw] ++ instancesToTry (some lw), usedFallback := true } := by
        unfold raceInstances
        rw [hw]
      rw [hfetch, hrace]
      refine ⟨rfl, Or.inr ⟨?_, rfl, rfl, rfl⟩⟩
      intro i hi
      have := List.findSome?_eq_none_iff.mp hw i hi
      exact Option.map_eq_none'.mp this
  · intro data inst sticky fmts h
    unfold processStreamData at h ⊢
    by_cases hemp :
        ((data.audioStreams.filter (fun s => jsTruthy s.url)).map (mkFormat data)).isEmpty
    · simp [hemp] at h
    · simp [hemp]

/-- C3 witness: with the sticky instance answering, the resolver returns its processed
result having contacted only the sticky instance. -/
theorem C3_witness :
    fetchStreamInfo smallEnv.piped failRes (some inst0) =
      ⟨(processStreamData okData inst0 (some inst0)).1,
       (processStreamData okData inst0 (some inst0)).2, [inst0], false⟩ :=
  (C3_sticky_provider smallEnv.piped failRes inst0).1 okData (by decide)

theorem find?_map_replace (f : CacheFile) :
    ∀ files : List CacheFile, files.any (fun g => g.name = f.name) = true →
      (files.map (fun g => if g.name = f.name then f else g)).find?
        (fun g => g.name = f.name) = some f := by
  intro files
  induction files with
  | nil => simp
  | cons g rest ih =>
    intro hany
    by_cases hg : g.name = f.name
    · simp [hg]
    · have hany2 : rest.any (fun x => x.name = f.name) = true := by
        simpa [hg] using hany
      simpa [hg] using ih hany2

theorem find?_append_self (f : CacheFile) :
    ∀ files : List CacheFile, files.any (fun g => g.name = f.name) = false →
      (files ++ [f]).find? (fun g => g.name = f.name) = some f := by
  intro files
  induction files with
  | nil => intro _; simp
  | cons g rest ih =>
    intro hany
    have hg : ¬(g.name = f.name) := by
      have := List.any_eq_false.mp hany g (List.mem_cons_self g rest)
      simpa using this
    have hany2 : rest.any (fun x => x.name = f.name) = false := by
      rw [List.any_eq_false] at hany ⊢
      intro x hx
      exact hany x (List.mem_cons_of_mem _ hx)
    rw [List.cons_append]
    simpa [hg] using ih hany2

theorem find?_writeFile_self (f : CacheFile) (files : List CacheFile) :
    (writeFile files f).find? (fun g => g.name = f.name) = some f := by
  unfold writeFile
  cases hany : files.any (fun g => g.name = f.name) with
  | true =>
    simp only [hany, if_true]
    exact find?_map_replace f files hany
  | false =>
    simp only [hany, Bool.false_eq_true, if_false]
    exact find?_append_self f files hany

theorem findSome?_isSome_of_mem {α β : Type} (l : List α) (F : α → Option β) (a : α) (b : β)
    (ha : a ∈ l) (hb : F a = some b) : (l.findSome? F).isSome = true := by
  induction l with
  | nil => simp at ha
  | cons x xs ih =>
    rcases List.mem_cons.mp ha with rfl | h2
    · simp [List.findSome?_cons, hb]
    · cases hx : F x with
      | some y => simp [List.findSome?_cons, hx]
      | none =>
        simp only [List.findSome?_cons, hx]
        exact ih h2

theorem cacheHit_isSome_after_write (t t2 : Int) (files : List CacheFile)
    (videoId ext : String) (len : Nat) (hext : ext ∈ CACHE_EXTS)
    (ht : t2 - t < 3600000) (hlen : 100000 < len) :
    (cacheHit t2 (writeFile files ⟨videoId ++ ext, t, t, len⟩) videoId).isSome = true := by
  unfold cacheHit
  refine findSome?_isSome_of_mem _ _ ext (noraUrl (videoId ++ ext)) hext ?_
  have hfind : (writeFile files ⟨videoId ++ ext, t, t, len⟩).find?
      (fun f => f.name = videoId ++ ext) = some ⟨videoId ++ ext, t, t, len⟩ :=
    find?_writeFile_self ⟨videoId ++ ext, t, t, len⟩ files
  simp only [hfind]
  simp [ht, hlen]

theorem cacheHit_none_mono {now now2 : Int} {files : List CacheFile} {videoId : String}
    (h : cacheHit now files videoId = none) (hle : now ≤ now2) :
    cacheHit now2 files videoId = none := by
  unfold cacheHit at h ⊢
  rw [List.findSome?_eq_none_iff] at h ⊢
  intro ext hext
  have h1 := h ext hext
  cases hf : files.find? (fun f => f.name = videoId ++ ext) with
  | none => simp [hf]
  | some f =>
    simp only [hf] at h1 ⊢
    by_cases hcond : now2 - f.mtime < 3600000 ∧ f.size > 100000
    · exfalso
      have hcond1 : now - f.mtime < 3600000 ∧ f.size > 100000 :=
        ⟨by omega, hcond.2⟩
      rw [if_pos hcond1] at h1
      simp at h1
    · rw [if_neg hcond]

theorem getStreamUrl_cacheHit_eq (env : StreamEnv) (now : Int) (st : StreamState)
    (videoId u : String) (h : cacheHit now st.files (cleanMPED videoId) = some u) :
    getStreamUrl env now st videoId = ⟨some u, st, [], false, []⟩ := by
  unfold getStreamUrl
  simp only [h]

theorem getStreamUrl_shape (env : StreamEnv) (now : Int) (st : StreamState)
    (videoId : String) :
    ((getStreamUrl env now st videoId).fsOps = [] ∧
      (getStreamUrl env now st videoId).state.files = st.files) ∨
    ∃ ext len, (ext = ".m4a" ∨ ext = ".webm") ∧ 0 < len ∧
      (getStreamUrl env now st videoId).fsOps =
        [FsOp.write (cleanMPED videoId ++ ext) len] ∧
      (getStreamUrl env now st videoId).state.files =
        writeFile st.files ⟨cleanMPED videoId ++ ext, now, now, len⟩ ∧
      (getStreamUrl env now st videoId).url =
        some (noraUrl (cleanMPED videoId ++ ext)) := by
  unfold getStreamUrl
  dsimp only
  split
  · exact Or.inl ⟨rfl, rfl⟩
  · split
    · exact Or.inl ⟨rfl, rfl⟩
    · split
      · exact Or.inl ⟨rfl, rfl⟩
      · split
        · exact Or.inl ⟨rfl, rfl⟩
        · split
          · exact Or.inl ⟨rfl, rfl⟩
          · split
            · exact Or.inl ⟨rfl, rfl⟩
            · split
              · exact Or.inl ⟨rfl, rfl⟩
              · rename_i hlen
                refine Or.inr ⟨_, _, ?_, Nat.pos_of_ne_zero hlen, rfl, rfl, rfl⟩
                split
                · exact Or.inl rfl
                · exact Or.inr rfl

theorem getStreamUrl_miss_contacts (env : StreamEnv) (now : Int) (st : StreamState)
    (videoId : String) (h : cacheHit now st.files (cleanMPED videoId) = none) :
    (getStreamUrl env now st videoId).contacts =
      (fetchStreamInfo env.piped env.fallback st.sticky).contacts := by
  unfold getStreamUrl
  simp only [h]
  repeat' first | rfl | split

theorem cacheHit_none_of_fail (env : StreamEnv) (now : Int) (st : StreamState)
    (videoId : String) (h : (getStreamUrl env now st videoId).url = none) :
    cacheHit now st.files (cleanMPED videoId) = none := by
  cases hc : cacheHit now st.files (cleanMPED videoId) with
  | none => rfl
  | some u =>
    rw [getStreamUrl_cacheHit_eq env now st videoId u hc] at h
    simp at h

theorem fetchStreamInfo_contacts_ne_nil (env : String → Option PipedData)
    (fb : StreamProviderResult) (sticky : Option String) :
    (fetchStreamInfo env fb sticky).contacts ≠ [] := by
  unfold fetchStreamInfo
  dsimp only
  cases sticky with
  | none =>
    unfold raceInstances
    cases hw : (instancesToTry (none : Option String)).findSome?
        (fun i => (env i).map (fun d => (i, d))) with
    | some pair => simp [hw, instancesToTry, PIPED_INSTANCES]
    | none => simp [hw, instancesToTry, PIPED_INSTANCES]
  | some lw =>
    cases henv : env lw with
    | some d => simp [henv]
    | none =>
      unfold raceInstances
      cases hw : (instancesToTry (some lw)).findSome?
          (fun i => (env i).map (fun d => (i, d))) with
      | some pair => simp [henv, hw]
      | none => simp [henv, hw]

theorem urlCacheGet_mapRep (videoId : String) (e : CachedUrl) :
    ∀ cache : UrlCache, cache.any (fun p => p.fst = videoId) = true →
      urlCacheGet (cache.map (fun p => if p.fst = videoId then (videoId, e) else p))
        videoId = some e := by
  intro cache
  induction cache with
  | nil => simp
  | cons p rest ih =>
    intro hany
    by_cases hp : p.fst = videoId
    · simp [urlCacheGet, List.filter_cons, hp]
    · have hany2 : rest.any (fun x => x.fst = videoId) = true := by
        simpa [hp] using hany
      simpa [urlCacheGet, List.filter_cons, hp] using ih hany2

theorem urlCacheGet_append (videoId : String) (e : CachedUrl) :
    ∀ cache : UrlCache, cache.any (fun p => p.fst = videoId) = false →
      urlCacheGet (cache ++ [(videoId, e)]) videoId = some e := by
  intro cache hany
  unfold urlCacheGet
  rw [List.filter_append]
  have hnil : cache.filter (fun p => p.fst = videoId) = [] := by
    rw [List.filter_eq_nil_iff]
    intro p hp
    simpa using List.any_eq_false.mp hany p hp
  rw [hnil]
  simp

theorem urlCacheGet_set (cache : UrlCache) (videoId : String) (e : CachedUrl) :
    urlCacheGet (urlCacheSet cache videoId e) videoId = some e := by
  unfold urlCacheSet
  cases hany : cache.any (fun p => p.fst = videoId) with
  | true =>
    simp only [hany, if_true]
    exact urlCacheGet_mapRep videoId e cache hany
  | false =>
    simp only [hany, Bool.false_eq_true, if_false]
    exact urlCacheGet_append videoId e cache hany

theorem ytAttempt_success (clients : ClientType → Option String) (now : Int)
    (cache : UrlCache) (videoId : String) (u : String) (cache2 : UrlCache)
    (tr : List ClientType) (h : ytAttempt clients now cache videoId = (some u, cache2, tr)) :
    cache2 = urlCacheSet cache videoId ⟨u, now⟩ := by
  unfold ytAttempt at h
  cases ha : clients ClientType.android with
  | some u0 =>
    simp only [ha, Prod.mk.injEq, Option.some_inj] at h
    rw [← h.2.1, h.1]
  | none =>
    cases hw : clients ClientType.web with
    | some u0 =>
      simp only [ha, hw, Prod.mk.injEq, Option.some_inj] at h
      rw [← h.2.1, h.1]
    | none =>
      cases hi : clients ClientType.ios with
      | some u0 =>
        simp only [ha, hw, hi, Prod.mk.injEq, Option.some_inj] at h
        rw [← h.2.1, h.1]
      | none =>
        simp [ha, hw, hi] at h

theorem ytAttempt_fail (clients : ClientType → Option String) (now : Int)
    (cache : UrlCache) (videoId : String)
    (h : (ytAttempt clients now cache videoId).1 = none) :
    (ytAttempt clients now cache videoId).2.1 = cache := by
  unfold ytAttempt at h ⊢
  cases ha : clients ClientType.android with
  | some u0 => simp [ha] at h
  | none =>
    cases hw : clients ClientType.web with
    | some u0 => simp [ha, hw] at h
    | none =>
      cases hi : clients ClientType.ios with
      | some u0 => simp [ha, hw, hi] at h
      | none => simp [ha, hw, hi]

/-- C1 counterexample: a resolution succeeds with a 50000-byte payload (below the
100000-byte cache threshold), so the second resolution of the same id one second later
is NOT answered from the cache and contacts the providers again — the claim that every
successful resolution makes the second call a fresh cache hit with zero provider calls
is false. -/
theorem C1_counterexample :
    ((getStreamUrl smallEnv 0 emptyState "abc").url).isSome = true ∧
    (getStreamUrl smallEnv 0 emptyState "abc").fsOps = [FsOp.write "abc.m4a" 50000] ∧
    (getStreamUrl smallEnv 1000 (getStreamUrl smallEnv 0 emptyState "abc").state
      "abc").contacts ≠ [] := by decide

/-- C1 amended: a second resolution within the freshness window is answered from the
cache with zero provider network calls provided the first resolution actually wrote a
payload larger than the 100000-byte minimum: getStreamUrl answers from the byte-cache
file within one hour of the write, and getYouTubeStreamUrl answers from its in-memory
URL memo within the 30-minute TTL after any fresh (non-memo) success, the latter with
no size condition. -/
theorem C1_second_resolution_cached :
    (∀ (env : StreamEnv) (t t2 : Int) (st : StreamState) (videoId u name : String)
        (n : Nat),
      (getStreamUrl env t st videoId).url = some u →
      (getStreamUrl env t st videoId).fsOps = [FsOp.write name n] →
      100000 < n → t2 - t < 3600000 →
      (getStreamUrl env t2 (getStreamUrl env t st videoId).state videoId).contacts = [] ∧
      (getStreamUrl env t2 (getStreamUrl env t st videoId).state videoId).usedFallback
        = false ∧
      (getStreamUrl env t2 (getStreamUrl env t st videoId).state videoId).fsOps = [] ∧
      ((getStreamUrl env t2 (getStreamUrl env t st videoId).state videoId).url).isSome
        = true) ∧
    (∀ (clients : ClientType → Option String) (t t2 : Int) (cache : UrlCache)
        (videoId u : String) (cache2 : UrlCache) (tr : List ClientType),
      getYouTubeStreamUrl clients t cache videoId = (some u, cache2, tr) → tr ≠ [] →
      t2 - t < URL_CACHE_TTL →
      getYouTubeStreamUrl clients t2 cache2 videoId = (some u, cache2, [])) := by
  constructor
  · intro env t t2 st videoId u name n hu hops hn ht
    rcases getStreamUrl_shape env t st videoId with ⟨hf, _⟩ | hsucc
    · rw [hf] at hops
      simp at hops
    · obtain ⟨ext, len, hext, hlen, hops2, hfiles, hurl⟩ := hsucc
      rw [hops2] at hops
      simp only [List.cons.injEq, FsOp.write.injEq, and_true] at hops
      obtain ⟨-, hnlen⟩ := hops
      have hextmem : ext ∈ CACHE_EXTS := by
        rcases hext with rfl | rfl <;> decide
      have hsome : (cacheHit t2 (getStreamUrl env t st videoId).state.files
          (cleanMPED videoId)).isSome = true := by
        rw [hfiles]
        exact cacheHit_isSome_after_write t t2 st.files (cleanMPED videoId) ext len
          hextmem ht (by omega)
      obtain ⟨u2, hu2⟩ := Option.isSome_iff_exists.mp hsome
      rw [getStreamUrl_cacheHit_eq env t2 _ videoId u2 hu2]
      exact ⟨rfl, rfl, rfl, rfl⟩
  · intro clients t t2 cache videoId u cache2 tr h htr httl
    unfold getYouTubeStreamUrl at h
    cases hg : urlCacheGet cache videoId with
    | some e =>
      simp only [hg] at h
      by_cases hfresh : t - e.cachedAt < URL_CACHE_TTL
      · rw [if_pos hfresh] at h
        simp only [Prod.mk.injEq] at h
        exact absurd h.2.2.symm htr
      · rw [if_neg hfresh] at h
        have hset := ytAttempt_success clients t cache videoId u cache2 tr h
        have hget : urlCacheGet cache2 videoId = some ⟨u, t⟩ := by
          rw [hset]
          exact urlCacheGet_set cache videoId ⟨u, t⟩
        unfold getYouTubeStreamUrl
        simp [hget, httl]
    | none =>
      simp only [hg] at h
      have hset := ytAttempt_success clients t cache videoId u cache2 tr h
      have hget : urlCacheGet cache2 videoId = some ⟨u, t⟩ := by
        rw [hset]
        exact urlCacheGet_set cache videoId ⟨u, t⟩
      unfold getYouTubeStreamUrl
      simp [hget, httl]

/-- C1 witness: a 200000-byte payload written at time 0 is served from the byte cache
at time 1000 with zero provider contacts. -/
theorem C1_witness :
    (getStreamUrl bigEnv 1000 (getStreamUrl bigEnv 0 emptyState "abc").state
      "abc").contacts = [] ∧
    ((getStreamUrl bigEnv 1000 (getStreamUrl bigEnv 0 emptyState "abc").state
      "abc").url).isSome = true := by
  have h := C1_second_resolution_cached.1 bigEnv 0 1000 emptyState "abc"
    (noraUrl "abc.m4a") "abc.m4a" 200000 (by decide) (by decide) (by decide) (by decide)
  exact ⟨h.1, h.2.2.2⟩

/-- C9: when getStreamUrl fails it writes nothing — the byte-cache directory is
unchanged and no filesystem operation is emitted — and a subsequent call for the same
id contacts the providers again (no negative caching); likewise a failed
getYouTubeStreamUrl leaves the URL memo untouched. (The modelled getStreamUrl threads
no metadata-cache state at all: the source function never writes the stream_url_cache
table on any path.) -/
theorem C9_no_negative_caching :
    (∀ (env : StreamEnv) (now now2 : Int) (st : StreamState) (videoId : String),
      (getStreamUrl env now st videoId).url = none → now ≤ now2 →
      (getStreamUrl env now st videoId).state.files = st.files ∧
      (getStreamUrl env now st videoId).fsOps = [] ∧
      (getStreamUrl env now2 (getStreamUrl env now st videoId).state videoId).contacts
        ≠ []) ∧
    (∀ (clients : ClientType → Option String) (now : Int) (cache : UrlCache)
        (videoId : String),
      (getYouTubeStreamUrl clients now cache videoId).1 = none →
      (getYouTubeStreamUrl clients now cache videoId).2.1 = cache) := by
  constructor
  · intro env now now2 st videoId hfail hle
    rcases getStreamUrl_shape env now st videoId with ⟨hops, hfiles⟩ | hsucc
    · refine ⟨hfiles, hops, ?_⟩
      have hmiss : cacheHit now st.files (cleanMPED videoId) = none :=
        cacheHit_none_of_fail env now st videoId hfail
      have hmiss2 : cacheHit now2 (getStreamUrl env now st videoId).state.files
          (cleanMPED videoId) = none := by
        rw [hfiles]
        exact cacheHit_none_mono hmiss hle
      rw [getStreamUrl_miss_contacts env now2 _ videoId hmiss2]
      exact fetchStreamInfo_contacts_ne_nil _ _ _
    · obtain ⟨ext, len, _, _, _, _, hurl⟩ := hsucc
      rw [hurl] at hfail
      simp at hfail
  · intro clients now cache videoId h
    unfold getYouTubeStreamUrl at h ⊢
    cases hg : urlCacheGet cache videoId with
    | some e =>
      simp only [hg] at h ⊢
      by_cases hfresh : now - e.cachedAt < URL_CACHE_TTL
      · rw [if_pos hfresh] at h
        simp at h
      · rw [if_neg hfresh] at h ⊢
        exact ytAttempt_fail clients now cache videoId h
    | none =>
      simp only [hg] at h ⊢
      exact ytAttempt_fail clients now cache videoId h

/-- C9 witness: with every provider tier failing, getStreamUrl returns null and writes
nothing. -/
theorem C9_witness :
    (getStreamUrl failEnv 0 emptyState "abc").state.files = emptyState.files ∧
    (getStreamUrl failEnv 0 emptyState "abc").fsOps = [] := by
  have h := C9_no_negative_caching.1 failEnv 0 0 emptyState "abc" (by decide) (by decide)
  exact ⟨h.1, h.2.1⟩

/-- C10 counterexample: a successful resolution emits exactly one filesystem
operation — a direct write of the full payload to the final cache path (the very path
the byte-cache probe reads) — and no rename at all, so the write is not performed as
write-to-temp-then-rename. -/
theorem C10_counterexample :
    ((getStreamUrl bigEnv 0 emptyState "abc").url).isSome = true ∧
    (getStreamUrl bigEnv 0 emptyState "abc").fsOps = [FsOp.write "abc.m4a" 200000] ∧
    ((getStreamUrl bigEnv 0 emptyState "abc").fsOps.all
      (fun op => !isRenameOp op)) = true ∧
    cacheHit 1000 (getStreamUrl bigEnv 0 emptyState "abc").state.files "abc" =
      some (noraUrl "abc.m4a") := by decide

/-- C10 amended: every filesystem operation emitted by getStreamUrl, and by the
download-and-store tail of prefetchSingle, is a single direct writeFileSync of the
complete downloaded buffer to the final cache path (identifier plus codec extension);
no temporary file and no rename is ever used, so the write-to-temp-then-rename
atomicity the claim describes is absent. -/
theorem C10_write_path :
    (∀ (env : StreamEnv) (now : Int) (st : StreamState) (videoId : String),
      ∀ op ∈ (getStreamUrl env now st videoId).fsOps,
        ∃ ext n, (ext = ".m4a" ∨ ext = ".webm") ∧
          op = FsOp.write (cleanMPED videoId ++ ext) n ∧ 0 < n ∧
          isRenameOp op = false) ∧
    (∀ (files : List CacheFile) (now : Int) (name : String) (dl : Option Nat),
      ∀ op ∈ (prefetchStore files now name dl).2,
        ∃ n, op = FsOp.write name n ∧ 0 < n ∧ isRenameOp op = false) := by
  constructor
  · intro env now st videoId op hop
    rcases getStreamUrl_shape env now st videoId with ⟨hops, _⟩ | hsucc
    · rw [hops] at hop
      simp at hop
    · obtain ⟨ext, len, hext, hlen, hops2, -, -⟩ := hsucc
      rw [hops2] at hop
      rcases List.mem_singleton.mp hop with rfl
      exact ⟨ext, len, hext, rfl, hlen, rfl⟩
  · intro files now name dl op hop
    unfold prefetchStore at hop
    cases dl with
    | none => simp at hop
    | some len =>
      by_cases hz : len = 0
      · simp [hz] at hop
      · simp only [hz, if_false] at hop
        rcases List.mem_singleton.mp hop with rfl
        exact ⟨len, rfl, Nat.pos_of_ne_zero hz, rfl⟩

/-- C10 witness: the operation of the successful run is a direct write. -/
theorem C10_witness :
    ∃ ext n, (ext = ".m4a" ∨ ext = ".webm") ∧
      FsOp.write "abc.m4a" 200000 = FsOp.write (cleanMPED "abc" ++ ext) n ∧ 0 < n ∧
      isRenameOp (FsOp.write "abc.m4a" 200000) = false :=
  C10_write_path.1 bigEnv 0 emptyState "abc" (FsOp.write "abc.m4a" 200000) (by decide)

/-- C8: the enqueue loop of prefetchVideos appends exactly the cleaned incoming ids
that are not cached, not in flight and not already queued — the appended ids are
pairwise distinct — and touches nothing else of the scheduler state; and the scenario
enqueue of a, b, a with worker bound 2 starts exactly the two distinct downloads a and
b. -/
theorem C8_enqueue_dedup :
    (∀ (cached : String → Bool) (st : PrefetchState) (videoIds : List String),
      ∃ app, (videoIds.foldl (enqueueStep cached) st).queue = st.queue ++ app ∧
        app.Nodup ∧
        (∀ id ∈ app, cached id = false ∧ id ∉ st.inProgress ∧ id ∉ st.queue ∧
          id ∈ videoIds.map cleanMPED) ∧
        (videoIds.foldl (enqueueStep cached) st).inProgress = st.inProgress ∧
        (videoIds.foldl (enqueueStep cached) st).active = st.active ∧
        (videoIds.foldl (enqueueStep cached) st).started = st.started) ∧
    prefetchVideos (fun _ => false) ⟨[], [], 0, []⟩ ["a", "b", "a"] =
      ⟨[], ["a", "b"], 2, ["a", "b"]⟩ := by
  constructor
  · intro cached st videoIds
    induction videoIds generalizing st with
    | nil => exact ⟨[], by simp⟩
    | cons id ids ih =>
      obtain ⟨app, hq, hnd, hprop, hin, hact, hstart⟩ := ih (enqueueStep cached st id)
      by_cases hc : ¬ cached (cleanMPED id) ∧ cleanMPED id ∉ st.inProgress ∧
          cleanMPED id ∉ st.queue
      · have hstep : enqueueStep cached st id =
            { st with queue := st.queue ++ [cleanMPED id] } := by
          unfold enqueueStep
          rw [if_pos hc]
        refine ⟨cleanMPED id :: app, ?_, ?_, ?_, ?_, ?_, ?_⟩
        · rw [List.foldl_cons, hq, hstep]
          simp
        · refine List.nodup_cons.mpr ⟨?_, hnd⟩
          intro hmem
          have := (hprop (cleanMPED id) hmem).2.2.1
          rw [hstep] at this
          simp at this
        · intro x hx
          rcases List.mem_cons.mp hx with rfl | hx2
          · exact ⟨by simpa using hc.1, hc.2.1, hc.2.2,
              by simp⟩
          · have hp := hprop x hx2
            rw [hstep] at hp
            refine ⟨hp.1, by simpa using hp.2.1, ?_, ?_⟩
            · intro hmem
              exact hp.2.2.1 (by simp [hmem])
            · simp only [List.map_cons]
              exact List.mem_cons_of_mem _ hp.2.2.2
        · rw [List.foldl_cons, hin, hstep]
        · rw [List.foldl_cons, hact, hstep]
        · rw [List.foldl_cons, hstart, hstep]
      · have hstep : enqueueStep cached st id = st := by
          unfold enqueueStep
          rw [if_neg hc]
        rw [hstep] at hq hprop hin hact hstart
        refine ⟨app, by rw [List.foldl_cons, hstep]; exact hq, hnd, ?_,
          by rw [List.foldl_cons, hstep]; exact hin,
          by rw [List.foldl_cons, hstep]; exact hact,
          by rw [List.foldl_cons, hstep]; exact hstart⟩
        intro x hx
        have hp := hprop x hx
        refine ⟨hp.1, hp.2.1, hp.2.2.1, ?_⟩
        simp only [List.map_cons]
        exact List.mem_cons_of_mem _ hp.2.2.2
  · decide

/-- C8 witness: the general enqueue property instantiated at the scenario input. -/
theorem C8_witness :
    ∃ app, ((["a", "b", "a"].foldl (enqueueStep (fun _ => false))
        ⟨[], [], 0, []⟩).queue = [] ++ app ∧ app.Nodup) := by
  obtain ⟨app, h1, h2, -⟩ :=
    C8_enqueue_dedup.1 (fun _ => false) ⟨[], [], 0, []⟩ ["a", "b", "a"]
  exact ⟨app, h1, h2⟩

end Analizalo
